import Mathlib

/-!
Verification of the batch-record generator's data-normalization and lookup
pipeline (`document_generator.py`, `config.py`).  Python string/regex
operations are shallowly embedded as executable functions over `List Char`
(ASCII semantics: Python's Unicode-aware `\w`, `\s`, `.lower()`, `.upper()`
restricted to the ASCII range, which matches Lean's own `Char.toLower`).
All definitions are translated from the source; theorems settle the frozen
claims about it.
-/

namespace BatchGen

/-! ### Character classes (models of Python's regex classes, ASCII range) -/

/-- Model of Python regex `\s` (ASCII part): space, tab, newline, carriage
return, vertical tab, form feed. -/
def isSpaceClass (c : Char) : Bool :=
  c = ' ' || c = '\t' || c = '\n' || c = '\r' || c = '\x0b' || c = '\x0c'

/-- Model of Python regex `\w` (ASCII part): letters (A-Z code points 65-90,
a-z 97-122), digits (0-9, 48-57), underscore (95). -/
def isWordChar (c : Char) : Bool :=
  decide ((65 ≤ c.toNat ∧ c.toNat ≤ 90) ∨ (97 ≤ c.toNat ∧ c.toNat ≤ 122) ∨
    (48 ≤ c.toNat ∧ c.toNat ≤ 57) ∨ c.toNat = 95)

/-- Characters kept by `re.sub(r'[^\w\s]', '', col)`. -/
def keepChar (c : Char) : Bool :=
  isWordChar c || isSpaceClass c

/-! ### Python `str.strip` / `.lower()` / `.upper()` models -/

/-- Left strip of `\s`-class characters. -/
def trimLeftL (l : List Char) : List Char :=
  l.dropWhile isSpaceClass

/-- Right strip of `\s`-class characters. -/
def trimRightL (l : List Char) : List Char :=
  l.rdropWhile isSpaceClass

/-- Both-ends strip: model of Python `str.strip()`. -/
def pyStripL (l : List Char) : List Char :=
  trimRightL (trimLeftL l)

/-- Model of Python `str.strip()` on `String`. -/
def pyStrip (s : String) : String :=
  ⟨pyStripL s.data⟩

/-- Model of Python `str.lower()` for one character (ASCII). -/
def lowCh (c : Char) : Char :=
  if 65 ≤ c.toNat ∧ c.toNat ≤ 90 then Char.ofNat (c.toNat + 32) else c

/-- Model of Python `str.upper()` for one character (ASCII). -/
def upCh (c : Char) : Char :=
  if 97 ≤ c.toNat ∧ c.toNat ≤ 122 then Char.ofNat (c.toNat - 32) else c

/-- Model of Python `str.lower()`. -/
def pyLower (s : String) : String :=
  ⟨s.data.map lowCh⟩

/-- Model of Python `str.upper()`. -/
def pyUpper (s : String) : String :=
  ⟨s.data.map upCh⟩

/-! ### `clean_column_names` (document_generator.py lines 68-76) -/

/-- `str.replace(' ', '_')` applied to one character. -/
def repSpace (c : Char) : Char :=
  if c = ' ' then '_' else c

/-- Model of `re.sub(r'_+', '_', s)`: collapse every run of underscores to a
single one.  The boolean state records whether the previous character was an
underscore (in which case further underscores of the run are dropped). -/
def squashU : Bool → List Char → List Char
  | _, [] => []
  | prevU, c :: rest =>
    if c = '_' then
      if prevU then squashU true rest else '_' :: squashU true rest
    else c :: squashU false rest

/-- The cleaning pipeline of `clean_column_names` for a single column name:
`re.sub(r'[^\w\s]', '', col)` then `.strip().lower().replace(' ', '_')`
then `re.sub(r'_+', '_', ...)`, on `List Char`. -/
def cleanL (l : List Char) : List Char :=
  squashU false (((pyStripL (l.filter keepChar)).map lowCh).map repSpace)

/-- `clean_column_names` loop body for a single column header. -/
def clean_column_name (s : String) : String :=
  ⟨cleanL s.data⟩

/-- `clean_column_names` (document_generator.py): cleans every header. -/
def clean_column_names (cols : List String) : List String :=
  cols.map clean_column_name

/-- No two adjacent underscores (the normal form produced by
`re.sub(r'_+', '_', ...)`). -/
def noAdjU : List Char → Bool
  | [] => true
  | [_] => true
  | a :: b :: rest => !(a = '_' && b = '_') && noAdjU (b :: rest)

/-! ### A stable insertion sort (model of Python's stable `sorted`/`list.sort`) -/

/-- Insert `x` into `l` before the first element `y` with `lt y x = false`;
equal-key elements already in `l` therefore stay in front only when they are
strictly smaller, i.e. `x` is placed before later equals, preserving the
original relative order of equal keys (stability). -/
def insertStable {α : Type} (lt : α → α → Bool) (x : α) : List α → List α
  | [] => [x]
  | y :: ys => if lt y x then y :: insertStable lt x ys else x :: y :: ys

/-- Stable insertion sort by the strict comparison `lt`. -/
def isort {α : Type} (lt : α → α → Bool) : List α → List α
  | [] => []
  | x :: xs => insertStable lt x (isort lt xs)

/-- Key-based comparison used with a `Nat` sort key (Python `sorted(key=...)`). -/
def keyLt {α : Type} (key : α → Nat) (a b : α) : Bool :=
  decide (key a < key b)

/-! ### Substring containment (Python `in` operator on strings) -/

def isPrefixL : List Char → List Char → Bool
  | [], _ => true
  | _ :: _, [] => false
  | p :: ps, c :: cs => p = c && isPrefixL ps cs

def containsSubL (pat : List Char) : List Char → Bool
  | [] => pat.isEmpty
  | c :: cs => isPrefixL pat (c :: cs) || containsSubL pat cs

/-- Python `pat in s` (substring containment). -/
def containsSubstr (s pat : String) : Bool :=
  containsSubL pat.data s.data

/-- The NA-token check
`any(na_val in s for na_val in ['#N/A', '#NA', 'N/A', 'NA'])` shared by
`format_date_properly` and `format_percentage` (applied to the already
upper-cased string). -/
def containsNA (s : String) : Bool :=
  ["#N/A", "#NA", "N/A", "NA"].any (fun na_val => containsSubstr s na_val)

/-! ### `format_date_properly` (document_generator.py lines 205-236) -/

/-- Model of `str.split(sep)`: split into the (possibly empty) chunks between
separator occurrences. -/
def splitSep (sep : Char) : List Char → List (List Char)
  | [] => [[]]
  | c :: rest =>
    if c = sep then [] :: splitSep sep rest
    else (splitSep sep rest).modifyHead (fun chunk => c :: chunk)

/-- A numeric `strptime` field: all digits, length within `[minLen, maxLen]`
(`%d`/`%m` accept 1-2 digits, `%Y` exactly 4); yields its decimal value. -/
def digitsVal? (minLen maxLen : Nat) (l : List Char) : Option Nat :=
  if minLen ≤ l.length ∧ l.length ≤ maxLen ∧ l.all Char.isDigit then
    some (l.foldl (fun a c => 10 * a + (c.toNat - 48)) 0)
  else none

/-- Gregorian leap-year rule used by `datetime.date`. -/
def isLeap (y : Nat) : Bool :=
  y % 4 = 0 && (y % 100 ≠ 0 || y % 400 = 0)

def daysInMonth (y m : Nat) : Nat :=
  if m = 2 then (if isLeap y then 29 else 28)
  else if m = 4 ∨ m = 6 ∨ m = 9 ∨ m = 11 then 30
  else 31

structure PyDate where
  year : Nat
  month : Nat
  day : Nat
deriving DecidableEq

/-- `datetime(year, month, day)` construction: `strptime` raises `ValueError`
on an impossible date (caught by the per-format `except`), modelled as
`none`.  `datetime.MINYEAR = 1`, `MAXYEAR = 9999`. -/
def mkDate? (y m d : Nat) : Option PyDate :=
  if 1 ≤ y ∧ y ≤ 9999 ∧ 1 ≤ m ∧ m ≤ 12 ∧ 1 ≤ d ∧ d ≤ daysInMonth y m then
    some ⟨y, m, d⟩
  else none

inductive FieldOrder
  | ymd
  | dmy
  | mdy
deriving DecidableEq

/-- `datetime.strptime(s, fmt)` for the six numeric formats of
`format_date_properly`: three numeric fields joined by a literal separator
(whole string must match), `%d`/`%m` matching 1-2 digits, `%Y` exactly 4,
then date construction. -/
def strptime3? (s : String) (sep : Char) (ord : FieldOrder) : Option PyDate :=
  match splitSep sep s.data with
  | [a, b, c] =>
    match ord with
    | .ymd => do
      let y ← digitsVal? 4 4 a
      let m ← digitsVal? 1 2 b
      let d ← digitsVal? 1 2 c
      mkDate? y m d
    | .dmy => do
      let d ← digitsVal? 1 2 a
      let m ← digitsVal? 1 2 b
      let y ← digitsVal? 4 4 c
      mkDate? y m d
    | .mdy => do
      let m ← digitsVal? 1 2 a
      let d ← digitsVal? 1 2 b
      let y ← digitsVal? 4 4 c
      mkDate? y m d
  | _ => none

/-- The ordered `date_formats` loop:
`['%Y-%m-%d', '%d-%m-%Y', '%d/%m/%Y', '%m/%d/%Y', '%d.%m.%Y', '%Y.%m.%d']`,
first successful parse wins. -/
def tryFormats (s : String) : Option PyDate :=
  (strptime3? s '-' .ymd) <|> (strptime3? s '-' .dmy) <|> (strptime3? s '/' .dmy) <|>
    (strptime3? s '/' .mdy) <|> (strptime3? s '.' .dmy) <|> (strptime3? s '.' .ymd)

def pad2 (n : Nat) : String :=
  if n < 10 then "0" ++ toString n else toString n

/-- Four-digit zero-padded year for `strftime('%Y')`.  CPython's rendering
of years below 1000 is platform-dependent (glibc leaves them unpadded);
such years arise only from explicitly zero-padded inputs like `0045-01-02`,
since the parse side requires exactly four digits. -/
def pad4 (n : Nat) : String :=
  if n < 10 then "000" ++ toString n
  else if n < 100 then "00" ++ toString n
  else if n < 1000 then "0" ++ toString n
  else toString n

/-- `parsed_date.strftime('%d.%m.%Y')`. -/
def fmtDMY (d : PyDate) : String :=
  pad2 d.day ++ "." ++ pad2 d.month ++ "." ++ pad4 d.year

/-- `date_str.split(' ')[0]`: the portion before the first space. -/
def beforeSpace (s : String) : String :=
  ⟨s.data.takeWhile (fun c => c ≠ ' ')⟩

/-- `format_date_properly` (document_generator.py lines 205-236).  The
`hasattr(date_value, 'strftime')` branch is unreachable here: every caller
passes the `str` produced by `get_formatted_value`. -/
def format_date_properly (date_value : String) : String :=
  if pyStrip date_value = "" then ""
  else
    let date_str := pyUpper (pyStrip date_value)
    if containsNA date_str then date_str
    else
      let d0 := beforeSpace date_str
      match tryFormats d0 with
      | some parsed_date => fmtDMY parsed_date
      | none => d0

/-! ### `format_percentage` (document_generator.py lines 238-254)

`float(...)` and `f"{v:.2f}"` are modelled exactly over decimal strings:
the parsed value is kept as `num * 10^e` and the two-decimal rendering
rounds it half-to-even.  (CPython rounds the nearest binary double instead;
the two agree except where that double breaks an exact decimal tie or the
mantissa exceeds double precision.)  PEP-515 digit-group underscores,
signs, `inf`/`infinity`/`nan` spellings and overflow-to-infinity are
modelled. -/

inductive PyFloat
  | fin (sign : Bool) (num : Nat) (e : Int)
  | inf (sign : Bool)
  | nan
deriving DecidableEq

/-- Optional leading sign of a float literal (or of its exponent). -/
def splitSign : List Char → Bool × List Char
  | '-' :: rest => (true, rest)
  | '+' :: rest => (false, rest)
  | l => (false, l)

def headIsDigit : List Char → Bool
  | [] => false
  | c :: _ => c.isDigit

def digitsToNat (l : List Char) : Nat :=
  l.foldl (fun a c => 10 * a + (c.toNat - 48)) 0

/-- Python grammar `digitpart: digit (["_"] digit)*`: nonempty, starts and
ends with a digit, only digits and underscores, no adjacent underscores. -/
def validDigitPart (l : List Char) : Bool :=
  headIsDigit l && headIsDigit l.reverse &&
    l.all (fun c => c.isDigit || c = '_') && noAdjU l

/-- Exponent part after the `E` marker: optional sign then a digit part. -/
def parseExp? (etail : List Char) : Option Int :=
  let es := splitSign etail
  if validDigitPart es.2 then
    let v : Int := Int.ofNat (digitsToNat (es.2.filter Char.isDigit))
    some (if es.1 then -v else v)
  else none

/-- Model of Python `float(s)` for whitespace-free input (the call site
strips all whitespace first). -/
def parseFloat? (s : String) : Option PyFloat :=
  let u := s.data.map upCh
  let sb := splitSign u
  let sgn := sb.1
  let body := sb.2
  if body = ['I', 'N', 'F'] ∨ body = ['I', 'N', 'F', 'I', 'N', 'I', 'T', 'Y'] then
    some (.inf sgn)
  else if body = ['N', 'A', 'N'] then some .nan
  else
    let mant := body.takeWhile (fun c => c ≠ 'E')
    let erest := body.dropWhile (fun c => c ≠ 'E')
    let expVal? : Option Int :=
      match erest with
      | [] => some 0
      | _ :: etail => parseExp? etail
    match expVal? with
    | none => none
    | some ev =>
      let ip := mant.takeWhile (fun c => c ≠ '.')
      let fp' := mant.dropWhile (fun c => c ≠ '.')
      match fp' with
      | [] =>
        if validDigitPart ip then
          some (.fin sgn (digitsToNat (ip.filter Char.isDigit)) ev)
        else none
      | _ :: fp =>
        if '.' ∈ fp then none
        else if ip = [] ∧ fp = [] then none
        else if ip ≠ [] ∧ ¬ validDigitPart ip then none
        else if fp ≠ [] ∧ ¬ validDigitPart fp then none
        else
          some (.fin sgn (digitsToNat ((ip.filter Char.isDigit) ++ (fp.filter Char.isDigit)))
            (ev - Int.ofNat (fp.filter Char.isDigit).length))

/-- Smallest magnitude that rounds (to nearest, ties to even) beyond the
largest finite IEEE double, i.e. overflows `float(...)` to infinity. -/
def OVERFLOW_BOUND : Nat := 2 ^ 1024 - 2 ^ 970

/-- Round `a / b` to the nearest integer, ties to even (`b > 0`). -/
def halfEvenDiv (a b : Nat) : Nat :=
  let q := a / b
  let r := a % b
  if b < 2 * r then q + 1
  else if 2 * r < b then q
  else if q % 2 = 0 then q
  else q + 1

/-- `f"{v:.2f}"`: fixed two-decimal rendering (`nan` and signed `inf`
rendered as CPython renders them). -/
def PyFloat.fmt2 : PyFloat → String
  | .nan => "nan"
  | .inf sgn => if sgn then "-inf" else "inf"
  | .fin sgn num e =>
    let isOver :=
      if 0 ≤ e then OVERFLOW_BOUND ≤ num * 10 ^ e.toNat
      else OVERFLOW_BOUND * 10 ^ (-e).toNat ≤ num
    if isOver then (if sgn then "-inf" else "inf")
    else
      let t := e + 2
      let r := if 0 ≤ t then num * 10 ^ t.toNat else halfEvenDiv num (10 ^ (-t).toNat)
      (if sgn then "-" else "") ++ toString (r / 100) ++ "." ++ pad2 (r % 100)

/-- `re.sub(r'[%\s]', '', value_str)`. -/
def stripPct (s : String) : String :=
  ⟨s.data.filter (fun c => !(c = '%' || isSpaceClass c))⟩

/-- `format_percentage` (document_generator.py lines 238-254).  The bare
`except` catches exactly a failing `float(...)`; `re.sub` and the string
comparisons cannot raise. -/
def format_percentage (value : String) : String :=
  if pyStrip value = "" then ""
  else
    let value_str := pyUpper (pyStrip value)
    if containsNA value_str then value_str
    else
      let clean_value := stripPct value_str
      if clean_value ≠ "" ∧ clean_value ≠ "nan" then
        match parseFloat? clean_value with
        | some v => v.fmt2 ++ "%"
        | none => value_str
      else ""

/-! ### The loaded dataset and the column cache -/

/-- The pandas DataFrame held in `self.df`: cleaned column headers and rows of
string-typed cells (`none` = NaN; `read_excel` maps blank/`NULL`/`null`/`NaN`
cells to NaN, every other cell to its text). -/
structure Frame where
  columns : List String
  rows : List (List (Option String))
deriving DecidableEq

/-- `df.empty`: true when either axis has length zero. -/
def Frame.emptyDf (f : Frame) : Bool :=
  f.rows.isEmpty || f.columns.isEmpty

/-- Cell of a row at a column index (`none` beyond the row's length, matching
a missing cell). -/
def cellAt (r : List (Option String)) (i : Nat) : Option String :=
  r.getD i none

/-- The logical fields of `config.column_mappings`. -/
inductive Field
  | product
  | batch_no
  | mfg_date
  | expiry_date
  | yld
  | accountability
  | location
  | remarks
  | sent_to_doc
deriving DecidableEq

/-- `self.column_cache`: resolved column name per logical field (`None` when
unresolved). -/
def Cache : Type := Field → Option String

/-- `get_formatted_value` (document_generator.py lines 177-187): resolved
column missing or falsy, column absent from the row's index, NaN cell or
empty cell give `''`; otherwise the stripped cell text. -/
def get_formatted_value (f : Frame) (cache : Cache) (batch : List (Option String))
    (field : Field) : String :=
  match cache field with
  | none => ""
  | some column_name =>
    if column_name = "" then ""
    else
      match f.columns.findIdx? (fun c => c = column_name) with
      | none => ""
      | some i =>
        match cellAt batch i with
        | none => ""
        | some value => if value = "" then "" else pyStrip value

/-- One normalized batch record (the dict built by `process_batch_data`). -/
structure BatchData where
  batch_no : String
  mfg_date : String
  expiry_date : String
  total_batch_yield : String
  total_batch_accountability : String
  location_rack_shelf : String
  remarks : String
  sent_to_document_room : String
deriving DecidableEq

/-- Loop body of `process_batch_data` (document_generator.py lines 160-175). -/
def row_to_batch (f : Frame) (cache : Cache) (batch : List (Option String)) : BatchData where
  batch_no := get_formatted_value f cache batch .batch_no
  mfg_date := format_date_properly (get_formatted_value f cache batch .mfg_date)
  expiry_date := format_date_properly (get_formatted_value f cache batch .expiry_date)
  total_batch_yield := format_percentage (get_formatted_value f cache batch .yld)
  total_batch_accountability := format_percentage (get_formatted_value f cache batch .accountability)
  location_rack_shelf := get_formatted_value f cache batch .location
  remarks := get_formatted_value f cache batch .remarks
  sent_to_document_room := format_date_properly (get_formatted_value f cache batch .sent_to_doc)

def process_batch_data (f : Frame) (cache : Cache) (matched : List (List (Option String))) :
    List BatchData :=
  matched.map (row_to_batch f cache)

/-- `re.findall(r'\d+', batch_no)[0]` as an integer, `0` if no digits occur
anywhere in the string: the sort key of `sort_batches`. -/
def batchKey (b : BatchData) : Nat :=
  let ds := (b.batch_no.data.dropWhile (fun c => ¬ c.isDigit)).takeWhile Char.isDigit
  if ds = [] then 0 else digitsToNat ds

/-- `sort_batches` (document_generator.py lines 191-203): Python's stable
`sorted(batches, key=...)` by the extracted batch number; the key function
cannot raise, so the `except` fallback is dead. -/
def sort_batches (batches : List BatchData) : List BatchData :=
  isort (keyLt batchKey) batches

/-- `pd.Series.astype(str)` on one cell: NaN renders as the string `'nan'`. -/
def astypeStr : Option String → String
  | none => "nan"
  | some s => s

/-- The row mask of `search_product_batches`:
`df[product_column].astype(str).str.lower() == product_name.lower()`. -/
def rowMatches (v : Option String) (product_name : String) : Bool :=
  pyLower (astypeStr v) == pyLower product_name

/-- `search_product_batches` (document_generator.py lines 135-158).  A
resolved product column absent from the cleaned headers would raise
`KeyError`, caught by the `except` which returns `None`. -/
def search_product_batches (df : Option Frame) (cache : Cache) (product_name : String) :
    Option (List BatchData) :=
  match df with
  | none => none
  | some f =>
    if f.emptyDf then none
    else
      match cache .product with
      | none => none
      | some product_column =>
        if product_column = "" then none
        else
          match f.columns.findIdx? (fun c => c = product_column) with
          | none => none
          | some i =>
            let product_batches := f.rows.filter (fun r => rowMatches (cellAt r i) product_name)
            if product_batches.isEmpty then none
            else some (sort_batches (process_batch_data f cache product_batches))

/-- The seen-set deduplication loop of `get_unique_products`
(`product_str = str(product).strip(); if product_str and product_str not in
seen: seen.add(...); result.append(...)`). -/
def uniqueLoop (seen : List String) : List String → List String
  | [] => []
  | p :: rest =>
    if pyStrip p ≠ "" ∧ pyStrip p ∉ seen then
      pyStrip p :: uniqueLoop (pyStrip p :: seen) rest
    else uniqueLoop seen rest

/-- Lexicographic-by-code-point comparison of character lists: the
semantics of Python's `str <` (a strict prefix is smaller). -/
def listLtCh : List Char → List Char → Bool
  | _, [] => false
  | [], _ :: _ => true
  | a :: as, b :: bs =>
    if a.toNat < b.toNat then true
    else if b.toNat < a.toNat then false
    else listLtCh as bs

/-- String comparison used by Python's `list.sort()` on `str`. -/
def strLt (a b : String) : Bool :=
  listLtCh a.data b.data

/-- The values of one column (`df[c]`), `none` for NaN cells; empty when the
column is absent (in which case the code's `except` path returns the same
empty result). -/
def Frame.colVals (f : Frame) (c : String) : List (Option String) :=
  match f.columns.findIdx? (fun col => col = c) with
  | none => []
  | some i => f.rows.map (fun r => cellAt r i)

/-- `get_unique_products` (document_generator.py lines 107-133): dropna,
drop values blank after strip, dedupe by stripped value, sort ascending. -/
def get_unique_products (df : Option Frame) (cache : Cache) : List String :=
  match df with
  | none => []
  | some f =>
    if f.emptyDf then []
    else
      match cache .product with
      | none => []
      | some product_column =>
        if product_column = "" then []
        else
          let vals := (f.colVals product_column).filterMap id
          let nonblank := vals.filter (fun v => pyStrip v ≠ "")
          isort strLt (uniqueLoop [] nonblank)

/-- `find_column_name` (document_generator.py lines 83-105): exact
case-sensitive candidate match in priority order, then first header whose
lower-cased text contains a candidate's lower-cased text, else `None`; an
unloaded or empty DataFrame short-circuits to `None`. -/
def find_column_name (df : Option Frame) (possible_names : List String) : Option String :=
  match df with
  | none => none
  | some f =>
    if f.emptyDf then none
    else
      match possible_names.find? (fun name => f.columns.contains name) with
      | some name => some name
      | none =>
        f.columns.find? (fun col =>
          possible_names.any (fun name => containsSubstr (pyLower col) (pyLower name)))

/-! ### `WebConfig` (config.py lines 9-26) and `load_excel_data`
(document_generator.py lines 30-66) -/

/-- The configuration object mutated by `load_excel_data`. -/
structure WebConfig where
  excel_file : String
  template_file : String
  sheet_name : String
  output_folder : String
  column_mappings : List (Field × List String)
deriving DecidableEq

/-- One worksheet of the source workbook: name, header row, data cells. -/
structure Sheet where
  name : String
  header : List String
  cells : List (List (Option String))
deriving DecidableEq

/-- A readable xlsx workbook; the format guarantees at least one sheet. -/
structure Workbook where
  firstSheet : Sheet
  restSheets : List Sheet

def Workbook.sheets (wb : Workbook) : List Sheet :=
  wb.firstSheet :: wb.restSheets

def Workbook.sheetNames (wb : Workbook) : List String :=
  wb.sheets.map Sheet.name

/-- Outcome of `load_excel_data`: the returned boolean, the configuration
after the call (the code mutates `self.config.sheet_name` in place), the
loaded DataFrame, and whether the missing-sheet warning was logged. -/
structure LoadResult where
  ok : Bool
  config : WebConfig
  df : Option Frame
  warned : Bool

/-- `load_excel_data`: `none` as source models a missing or unreadable file
(`os.path.exists` failing, or `pd.ExcelFile` raising into the `except`,
which returns `False`).  If the configured sheet name is absent the code
logs a warning and overwrites `self.config.sheet_name` with the first
sheet's name, then reads that sheet; headers are cleaned at load. -/
def load_excel_data (src : Option Workbook) (config : WebConfig) : LoadResult :=
  match src with
  | none => ⟨false, config, none, false⟩
  | some wb =>
    if config.sheet_name ∈ wb.sheetNames then
      let sheet := (wb.sheets.find? (fun sh => sh.name = config.sheet_name)).getD wb.firstSheet
      ⟨true, config, some ⟨clean_column_names sheet.header, sheet.cells⟩, false⟩
    else
      ⟨true, { config with sheet_name := wb.firstSheet.name },
        some ⟨clean_column_names wb.firstSheet.header, wb.firstSheet.cells⟩, true⟩

/-! ### Concrete fixtures used by witnesses and counterexamples -/

/-- A column cache resolving only `product` and `batch_no`. -/
def cacheEx1 : Cache := fun field =>
  match field with
  | .product => some "product"
  | .batch_no => some "batch_no"
  | _ => none

/-- A cache with every field unresolved. -/
def cacheNone : Cache := fun _ => none

/-- One-row frame holding the product `Aspirin`. -/
def frameAsp : Frame :=
  ⟨["product", "batch_no"], [[some "Aspirin", some "B-1"]]⟩

/-- One-row frame whose product value carries a leading space. -/
def frameAspLead : Frame :=
  ⟨["product", "batch_no"], [[some " Aspirin", some "B-1"]]⟩

/-- A batch record with only the batch number set (all other fields empty,
as produced for unresolved fields). -/
def bEx (s : String) : BatchData :=
  ⟨s, "", "", "", "", "", "", ""⟩

/-- Row fixture for the C3 witness. -/
def dfEx3 : Option Frame :=
  some ⟨["product"], [[some "Ibuprofen"], [some "Aspirin "], [some "Aspirin"], [none]]⟩

/-- A workbook whose only sheet is not the one the configuration requests. -/
def wbEx : Workbook :=
  ⟨⟨"Sheet1", ["Product Name"], [[some "Aspirin"]]⟩, []⟩

def cfgEx : WebConfig :=
  ⟨"data.xlsx", "template.docx", "5_Arc_List", "generated", []⟩

/-! ### Basic facts about characters -/

theorem toNat_ofNat_valid (n : Nat) (h : n.isValidChar) : (Char.ofNat n).toNat = n := by
  simp [Char.ofNat, dif_pos h, Char.ofNatAux, Char.toNat, UInt32.toNat, BitVec.ofNatLt]

theorem lowCh_of_upper {c : Char} (h1 : 65 ≤ c.toNat) (h2 : c.toNat ≤ 90) :
    (lowCh c).toNat = c.toNat + 32 := by
  unfold lowCh
  rw [if_pos ⟨h1, h2⟩]
  exact toNat_ofNat_valid _ (Or.inl (by omega))

theorem lowCh_of_nonupper {c : Char} (h : ¬ (65 ≤ c.toNat ∧ c.toNat ≤ 90)) :
    lowCh c = c := by
  unfold lowCh
  rw [if_neg h]

/-- Case analysis on `lowCh`: either the character is an ASCII capital and is
shifted into `[97,122]`, or it is returned unchanged. -/
theorem lowCh_cases (c : Char) :
    (65 ≤ c.toNat ∧ c.toNat ≤ 90 ∧ (lowCh c).toNat = c.toNat + 32) ∨
    (¬ (65 ≤ c.toNat ∧ c.toNat ≤ 90) ∧ lowCh c = c) := by
  by_cases h : 65 ≤ c.toNat ∧ c.toNat ≤ 90
  · exact Or.inl ⟨h.1, h.2, lowCh_of_upper h.1 h.2⟩
  · exact Or.inr ⟨h, lowCh_of_nonupper h⟩

theorem lowCh_idem (c : Char) : lowCh (lowCh c) = lowCh c := by
  rcases lowCh_cases c with ⟨_, _, h3⟩ | ⟨_, h2⟩
  · exact lowCh_of_nonupper (by omega)
  · rw [h2]
    exact h2

theorem isSpaceClass_toNat {c : Char} (h : isSpaceClass c = true) :
    c.toNat = 32 ∨ c.toNat = 9 ∨ c.toNat = 10 ∨ c.toNat = 13 ∨ c.toNat = 11 ∨ c.toNat = 12 := by
  simp only [isSpaceClass, Bool.or_eq_true, decide_eq_true_eq] at h
  rcases h with ((((h | h) | h) | h) | h) | h <;>
    subst h <;> simp [Char.toNat]

/-! ### Lemmas about `squashU` -/

theorem squashU_nil (b : Bool) : squashU b [] = [] := rfl

theorem squashU_cons_und_true (rest : List Char) :
    squashU true ('_' :: rest) = squashU true rest := rfl

theorem squashU_cons_und_false (rest : List Char) :
    squashU false ('_' :: rest) = '_' :: squashU true rest := rfl

theorem squashU_cons_of_ne {c : Char} (b : Bool) (rest : List Char) (h : c ≠ '_') :
    squashU b (c :: rest) = c :: squashU false rest := by
  simp [squashU, h]

theorem mem_of_mem_squashU {c : Char} : ∀ {b : Bool} {l : List Char}, c ∈ squashU b l → c ∈ l := by
  intro b l
  induction l generalizing b with
  | nil => intro h; simp [squashU] at h
  | cons a rest ih =>
    intro h
    by_cases ha : a = '_'
    · subst ha
      simp only [squashU, if_pos rfl] at h
      cases b with
      | true => exact List.mem_cons_of_mem _ (ih h)
      | false =>
        rcases List.mem_cons.mp h with h1 | h2
        · exact h1 ▸ List.mem_cons_self _ _
        · exact List.mem_cons_of_mem _ (ih h2)
    · simp only [squashU, if_neg ha] at h
      rcases List.mem_cons.mp h with h1 | h2
      · exact h1 ▸ List.mem_cons_self _ _
      · exact List.mem_cons_of_mem _ (ih h2)

theorem squashU_false_eq_nil_iff {l : List Char} : squashU false l = [] ↔ l = [] := by
  cases l with
  | nil => simp [squashU]
  | cons a rest =>
    simp only [squashU]
    constructor
    · intro h
      by_cases ha : a = '_' <;> simp [ha] at h
    · intro h
      exact absurd h (List.cons_ne_nil a rest)

theorem head?_squashU_false : ∀ l : List Char, (squashU false l).head? = l.head? := by
  intro l
  cases l with
  | nil => rfl
  | cons a rest =>
    by_cases ha : a = '_'
    · subst ha; simp [squashU]
    · simp [squashU, ha]

theorem head?_squashU_true_ne {c : Char} :
    ∀ l : List Char, (squashU true l).head? = some c → c ≠ '_' := by
  intro l
  induction l with
  | nil => intro h; simp [squashU] at h
  | cons a rest ih =>
    intro h
    by_cases ha : a = '_'
    · subst ha
      simp only [squashU, if_pos rfl] at h
      exact ih h
    · simp only [squashU, if_neg ha, List.head?_cons, Option.some.injEq] at h
      exact h ▸ ha

theorem getLast?_cons_ne_nil {α : Type} {a : α} {l : List α} (h : l ≠ []) :
    (a :: l).getLast? = l.getLast? := by
  cases l with
  | nil => exact absurd rfl h
  | cons b r => exact List.getLast?_cons_cons

theorem getLast?_squashU :
    ∀ (b : Bool) (l : List Char), squashU b l ≠ [] →
      (squashU b l).getLast? = l.getLast? ∨ (squashU b l).getLast? = some '_' := by
  intro b l
  induction l generalizing b with
  | nil => intro h; exact absurd rfl h
  | cons a rest ih =>
    intro h
    by_cases ha : a = '_'
    · subst ha
      cases b with
      | true =>
        rw [squashU_cons_und_true] at h ⊢
        have hr : rest ≠ [] := by
          intro hr; rw [hr] at h; exact h rfl
        rw [getLast?_cons_ne_nil hr]
        exact ih true h
      | false =>
        rw [squashU_cons_und_false] at h ⊢
        by_cases hs : squashU true rest = []
        · rw [hs]
          exact Or.inr rfl
        · have hr : rest ≠ [] := by
            intro hr; rw [hr] at hs; exact hs rfl
          rw [getLast?_cons_ne_nil hs, getLast?_cons_ne_nil hr]
          exact ih true hs
    · simp only [squashU, if_neg ha] at h ⊢
      by_cases hs : squashU false rest = []
      · have hr : rest = [] := squashU_false_eq_nil_iff.mp hs
        subst hr
        exact Or.inl rfl
      · have hr : rest ≠ [] := by
          intro hr; rw [hr] at hs; exact hs rfl
        rw [getLast?_cons_ne_nil hs, getLast?_cons_ne_nil hr]
        exact ih false hs

theorem noAdjU_tail {a : Char} {l : List Char} (h : noAdjU (a :: l) = true) :
    noAdjU l = true := by
  cases l with
  | nil => rfl
  | cons b r =>
    simp only [noAdjU, Bool.and_eq_true] at h
    exact h.2

theorem noAdjU_squashU : ∀ (b : Bool) (l : List Char), noAdjU (squashU b l) = true := by
  intro b l
  induction l generalizing b with
  | nil => cases b <;> rfl
  | cons a rest ih =>
    by_cases ha : a = '_'
    · subst ha
      cases b with
      | true =>
        simpa only [squashU, if_pos rfl] using ih true
      | false =>
        simp only [squashU, if_pos rfl]
        cases hs : squashU true rest with
        | nil => rfl
        | cons c X =>
          have hc : c ≠ '_' := head?_squashU_true_ne rest (by rw [hs]; rfl)
          have hn : noAdjU (c :: X) = true := by rw [← hs]; exact ih true
          simp only [noAdjU, Bool.and_eq_true, Bool.not_eq_true']
          exact ⟨by simp [hc], hn⟩
    · simp only [squashU, if_neg ha]
      cases hs : squashU false rest with
      | nil => rfl
      | cons c X =>
        have hn : noAdjU (c :: X) = true := by rw [← hs]; exact ih false
        simp only [noAdjU, Bool.and_eq_true, Bool.not_eq_true']
        exact ⟨by simp [ha], hn⟩

theorem squashU_of_noAdjU : ∀ {l : List Char}, noAdjU l = true → squashU false l = l := by
  intro l
  induction l with
  | nil => intro _; rfl
  | cons a rest ih =>
    intro h
    by_cases ha : a = '_'
    · subst ha
      rw [squashU_cons_und_false]
      cases rest with
      | nil => rfl
      | cons d r =>
        have hd : d ≠ '_' := by
          simp only [noAdjU, Bool.and_eq_true, Bool.not_eq_true'] at h
          intro hd
          simp [hd] at h
        have hr : squashU false (d :: r) = d :: r := ih (noAdjU_tail h)
        have h1 : squashU true (d :: r) = d :: squashU false r := squashU_cons_of_ne _ _ hd
        have h2 : squashU false (d :: r) = d :: squashU false r := squashU_cons_of_ne _ _ hd
        rw [h1, ← h2, hr]
    · rw [squashU_cons_of_ne _ _ ha, ih (noAdjU_tail h)]

/-! ### Lemmas about stripping -/

theorem head?_trimLeftL_not_space {c : Char} {l : List Char}
    (h : (trimLeftL l).head? = some c) : isSpaceClass c = false := by
  have hne : trimLeftL l ≠ [] := by
    intro hh; rw [hh] at h; exact Option.noConfusion h
  have hh := List.head_dropWhile_not isSpaceClass l hne
  rw [List.head?_eq_head hne] at h
  have : (trimLeftL l).head hne = c := Option.some.inj h
  rw [← this]
  exact Bool.not_eq_true _ ▸ (by simpa using hh)

theorem getLast?_trimRightL_not_space {c : Char} {l : List Char}
    (h : (trimRightL l).getLast? = some c) : isSpaceClass c = false := by
  have hne : trimRightL l ≠ [] := by
    intro hh; rw [hh] at h; exact Option.noConfusion h
  have hh := List.rdropWhile_last_not isSpaceClass l hne
  rw [List.getLast?_eq_getLast _ hne] at h
  have : (trimRightL l).getLast hne = c := Option.some.inj h
  rw [← this]
  simpa using hh

theorem head?_trimRightL {l : List Char} (hne : trimRightL l ≠ []) :
    (trimRightL l).head? = l.head? := by
  obtain ⟨t, ht⟩ := List.rdropWhile_prefix isSpaceClass l
  conv_rhs => rw [← ht]
  rw [List.head?_append]
  cases hh : (trimRightL l).head? with
  | none => exact absurd (List.head?_eq_none_iff.mp hh) hne
  | some c =>
    rw [show List.rdropWhile isSpaceClass l = trimRightL l from rfl, hh]
    rfl

theorem getLast?_trimLeftL {l : List Char} (hne : trimLeftL l ≠ []) :
    (trimLeftL l).getLast? = l.getLast? := by
  obtain ⟨t, ht⟩ := List.dropWhile_suffix (l := l) isSpaceClass
  conv_rhs => rw [← ht]
  rw [List.getLast?_append]
  cases hh : (trimLeftL l).getLast? with
  | none => exact absurd (List.getLast?_eq_none_iff.mp hh) hne
  | some c =>
    rw [show List.dropWhile isSpaceClass l = trimLeftL l from rfl, hh]
    rfl

theorem head?_pyStripL_not_space {c : Char} {l : List Char}
    (h : (pyStripL l).head? = some c) : isSpaceClass c = false := by
  have hne : pyStripL l ≠ [] := by
    intro hh; rw [hh] at h; exact Option.noConfusion h
  unfold pyStripL at h
  rw [head?_trimRightL hne] at h
  exact head?_trimLeftL_not_space h

theorem getLast?_pyStripL_not_space {c : Char} {l : List Char}
    (h : (pyStripL l).getLast? = some c) : isSpaceClass c = false :=
  getLast?_trimRightL_not_space h

theorem trimLeftL_eq_self {c : Char} {l : List Char}
    (h : l.head? = some c) (hc : isSpaceClass c = false) : trimLeftL l = l := by
  cases l with
  | nil => rfl
  | cons a rest =>
    have : a = c := Option.some.inj h
    subst this
    exact List.dropWhile_cons_of_neg (by simp [hc])

theorem trimRightL_eq_self {c : Char} {l : List Char}
    (h : l.getLast? = some c) (hc : isSpaceClass c = false) : trimRightL l = l := by
  apply List.rdropWhile_eq_self_iff.mpr
  intro hl
  rw [List.getLast?_eq_getLast _ hl] at h
  rw [Option.some.inj h]
  simp [hc]

theorem mem_of_mem_pyStripL {c : Char} {l : List Char} (h : c ∈ pyStripL l) : c ∈ l := by
  have h1 : c ∈ trimLeftL l :=
    (List.rdropWhile_prefix isSpaceClass (trimLeftL l)).sublist.subset h
  exact (List.dropWhile_sublist isSpaceClass).subset h1

/-! ### Character preservation through the cleaning pipeline -/

theorem isSpaceClass_lowCh {c : Char} (h : isSpaceClass c = false) :
    isSpaceClass (lowCh c) = false := by
  rcases lowCh_cases c with ⟨_, _, h3⟩ | ⟨_, h2⟩
  · cases hs : isSpaceClass (lowCh c)
    · rfl
    · rcases isSpaceClass_toNat hs with h4 | h4 | h4 | h4 | h4 | h4 <;> omega
  · rw [h2]; exact h

theorem lowCh_of_space {c : Char} (h : isSpaceClass c = true) : lowCh c = c := by
  apply lowCh_of_nonupper
  rcases isSpaceClass_toNat h with h4 | h4 | h4 | h4 | h4 | h4 <;> omega

theorem isWordChar_lowCh {c : Char} (h : isWordChar c = true) :
    isWordChar (lowCh c) = true := by
  simp only [isWordChar, decide_eq_true_eq] at h ⊢
  rcases lowCh_cases c with ⟨h1, h2, h3⟩ | ⟨_, h2⟩
  · omega
  · rw [h2]; exact h

theorem isSpaceClass_repSpace {c : Char} (h : isSpaceClass c = false) :
    isSpaceClass (repSpace c) = false := by
  have : c ≠ ' ' := by
    intro hc; subst hc; exact absurd h (by decide)
  rw [repSpace, if_neg this]
  exact h

theorem repSpace_ne_space (c : Char) : repSpace c ≠ ' ' := by
  by_cases h : c = ' '
  · rw [repSpace, if_pos h]; decide
  · rw [repSpace, if_neg h]; exact h

theorem keepChar_of_image {c : Char} (h : keepChar c = true) :
    keepChar (repSpace (lowCh c)) = true := by
  simp only [keepChar, Bool.or_eq_true] at h ⊢
  rcases h with hw | hs
  · have hw2 : isWordChar (lowCh c) = true := isWordChar_lowCh hw
    have hne : lowCh c ≠ ' ' := by
      intro hc
      rw [hc] at hw2
      exact absurd hw2 (by decide)
    rw [repSpace, if_neg hne]
    exact Or.inl hw2
  · rw [lowCh_of_space hs]
    by_cases hc : c = ' '
    · rw [repSpace, if_pos hc]
      exact Or.inl (by decide)
    · rw [repSpace, if_neg hc]
      exact Or.inr hs

theorem lowCh_fixed_of_image (c : Char) :
    lowCh (repSpace (lowCh c)) = repSpace (lowCh c) := by
  by_cases h : lowCh c = ' '
  · rw [h]
    decide
  · rw [repSpace, if_neg h]
    exact lowCh_idem c

/-! ### Idempotence of header cleaning -/

theorem cleanL_chars {c : Char} {l : List Char} (h : c ∈ cleanL l) :
    keepChar c = true ∧ lowCh c = c ∧ repSpace c = c := by
  have h1 : c ∈ ((pyStripL (l.filter keepChar)).map lowCh).map repSpace :=
    mem_of_mem_squashU h
  rw [List.map_map] at h1
  obtain ⟨b, hb, hbc⟩ := List.mem_map.mp h1
  have hkb : keepChar b = true :=
    List.of_mem_filter (mem_of_mem_pyStripL hb)
  subst hbc
  simp only [Function.comp_apply]
  refine ⟨keepChar_of_image hkb, lowCh_fixed_of_image b, ?_⟩
  conv_lhs => rw [repSpace]
  rw [if_neg (repSpace_ne_space (lowCh b))]

theorem head?_cleanL_not_space {c : Char} {l : List Char}
    (h : (cleanL l).head? = some c) : isSpaceClass c = false := by
  unfold cleanL at h
  rw [head?_squashU_false, List.map_map, List.head?_map] at h
  cases hs : (pyStripL (l.filter keepChar)).head? with
  | none => rw [hs] at h; exact Option.noConfusion h
  | some b =>
    rw [hs] at h
    have hb : isSpaceClass b = false := head?_pyStripL_not_space hs
    have : (repSpace ∘ lowCh) b = c := Option.some.inj h
    rw [← this, Function.comp_apply]
    exact isSpaceClass_repSpace (isSpaceClass_lowCh hb)

theorem getLast?_cleanL_not_space {c : Char} {l : List Char}
    (h : (cleanL l).getLast? = some c) : isSpaceClass c = false := by
  have hne : cleanL l ≠ [] := by
    intro hh; rw [hh] at h; exact Option.noConfusion h
  unfold cleanL at h hne
  rcases getLast?_squashU false _ hne with hg | hg
  · rw [hg, List.map_map, List.getLast?_map] at h
    cases hs : (pyStripL (l.filter keepChar)).getLast? with
    | none => rw [hs] at h; exact Option.noConfusion h
    | some b =>
      rw [hs] at h
      have hb : isSpaceClass b = false := getLast?_pyStripL_not_space hs
      have : (repSpace ∘ lowCh) b = c := Option.some.inj h
      rw [← this, Function.comp_apply]
      exact isSpaceClass_repSpace (isSpaceClass_lowCh hb)
  · rw [hg] at h
    rw [← Option.some.inj h]
    decide

theorem cleanL_idem (l : List Char) : cleanL (cleanL l) = cleanL l := by
  have hfilter : (cleanL l).filter keepChar = cleanL l :=
    List.filter_eq_self.mpr (fun c hc => (cleanL_chars hc).1)
  have htrimL : trimLeftL (cleanL l) = cleanL l := by
    cases hh : (cleanL l).head? with
    | none => rw [List.head?_eq_none_iff.mp hh]; rfl
    | some c => exact trimLeftL_eq_self hh (head?_cleanL_not_space hh)
  have htrimR : trimRightL (cleanL l) = cleanL l := by
    cases hh : (cleanL l).getLast? with
    | none => rw [List.getLast?_eq_none_iff.mp hh]; rfl
    | some c => exact trimRightL_eq_self hh (getLast?_cleanL_not_space hh)
  have hlow : (cleanL l).map lowCh = cleanL l := by
    rw [show cleanL l = (cleanL l).map id from (List.map_id _).symm]
    rw [List.map_map]
    exact List.map_congr_left (fun c hc => by
      rw [Function.comp_apply, id_eq, (cleanL_chars (by simpa using hc)).2.1])
  have hrep : (cleanL l).map repSpace = cleanL l := by
    rw [show cleanL l = (cleanL l).map id from (List.map_id _).symm]
    rw [List.map_map]
    exact List.map_congr_left (fun c hc => by
      rw [Function.comp_apply, id_eq, (cleanL_chars (by simpa using hc)).2.2])
  have hsq : squashU false (cleanL l) = cleanL l :=
    squashU_of_noAdjU (noAdjU_squashU false _)
  conv_lhs => rw [cleanL, hfilter]
  rw [show pyStripL (cleanL l) = cleanL l from by rw [pyStripL, htrimL, htrimR]]
  rw [hlow, hrep, hsq]

theorem insertStable_perm {α : Type} (lt : α → α → Bool) (x : α) :
    ∀ l : List α, List.Perm (insertStable lt x l) (x :: l) := by
  intro l
  induction l with
  | nil => exact List.Perm.refl _
  | cons y ys ih =>
    by_cases h : lt y x = true
    · rw [insertStable, if_pos h]
      exact (ih.cons y).trans (List.Perm.swap x y ys)
    · rw [insertStable, if_neg h]

theorem isort_perm {α : Type} (lt : α → α → Bool) :
    ∀ l : List α, List.Perm (isort lt l) l := by
  intro l
  induction l with
  | nil => exact List.Perm.refl _
  | cons x xs ih =>
    exact (insertStable_perm lt x (isort lt xs)).trans (ih.cons x)

theorem insertStable_pairwise {α : Type} (lt : α → α → Bool)
    (hasymm : ∀ a b, lt a b = true → lt b a = false)
    (htrans : ∀ a b c, lt b a = false → lt c b = false → lt c a = false)
    (x : α) :
    ∀ l : List α, List.Pairwise (fun a b => lt b a = false) l →
      List.Pairwise (fun a b => lt b a = false) (insertStable lt x l) := by
  intro l
  induction l with
  | nil =>
    intro _
    exact List.pairwise_singleton _ x
  | cons y ys ih =>
    intro hp
    rcases List.pairwise_cons.mp hp with ⟨hy, hys⟩
    by_cases h : lt y x = true
    · rw [insertStable, if_pos h]
      apply List.pairwise_cons.mpr
      refine ⟨?_, ih hys⟩
      intro z hz
      rcases List.mem_cons.mp ((insertStable_perm lt x ys).mem_iff.mp hz) with hz1 | hz2
      · rw [hz1]
        exact hasymm y x h
      · exact hy z hz2
    · rw [insertStable, if_neg h]
      apply List.pairwise_cons.mpr
      refine ⟨?_, hp⟩
      intro z hz
      rcases List.mem_cons.mp hz with hz1 | hz2
      · rw [hz1]
        exact Bool.eq_false_iff.mpr h
      · exact htrans x y z (Bool.eq_false_iff.mpr h) (hy z hz2)

theorem isort_pairwise {α : Type} (lt : α → α → Bool)
    (hasymm : ∀ a b, lt a b = true → lt b a = false)
    (htrans : ∀ a b c, lt b a = false → lt c b = false → lt c a = false) :
    ∀ l : List α, List.Pairwise (fun a b => lt b a = false) (isort lt l) := by
  intro l
  induction l with
  | nil => exact List.Pairwise.nil
  | cons x xs ih => exact insertStable_pairwise lt hasymm htrans x (isort lt xs) ih

/-- Filtering any fixed key value commutes with stable insertion: the inserted
element lands after every element of equal key and before strictly larger
ones, so the subsequence at each key is preserved. -/
theorem insertStable_filter_key {α : Type} (key : α → Nat) (x : α) (n : Nat) :
    ∀ l : List α,
      (insertStable (keyLt key) x l).filter (fun a => key a == n) =
        if key x == n then x :: l.filter (fun a => key a == n)
        else l.filter (fun a => key a == n) := by
  intro l
  induction l with
  | nil =>
    by_cases h : (key x == n) = true <;> simp [insertStable, h]
  | cons y ys ih =>
    by_cases h : keyLt key y x = true
    · rw [insertStable, if_pos h]
      by_cases hy : (key y == n) = true
      · have hx : (key x == n) = false := by
          simp only [keyLt, decide_eq_true_eq] at h
          have hyn : key y = n := by simpa using hy
          simp only [beq_eq_false_iff_ne, ne_eq]
          omega
        simp [List.filter_cons, hy, hx, ih]
      · simp [List.filter_cons, hy, ih]
    · rw [insertStable, if_neg h]
      by_cases hx : (key x == n) = true
      · simp [List.filter_cons, hx]
      · simp [List.filter_cons, hx]

/-- Stability of the key-based insertion sort: the subsequence of elements
having any given key is unchanged. -/
theorem isort_filter_key {α : Type} (key : α → Nat) (n : Nat) :
    ∀ l : List α,
      (isort (keyLt key) l).filter (fun a => key a == n) =
        l.filter (fun a => key a == n) := by
  intro l
  induction l with
  | nil => rfl
  | cons x xs ih =>
    rw [isort, insertStable_filter_key]
    by_cases hx : (key x == n) = true
    · simp [List.filter_cons, hx, ih]
    · simp [List.filter_cons, hx, ih]

/-! ### Supporting lemmas for the claims -/

theorem pyStripL_idem (l : List Char) : pyStripL (pyStripL l) = pyStripL l := by
  have h1 : trimLeftL (pyStripL l) = pyStripL l := by
    cases hh : (pyStripL l).head? with
    | none => rw [List.head?_eq_none_iff.mp hh]; rfl
    | some c => exact trimLeftL_eq_self hh (head?_pyStripL_not_space hh)
  have h2 : trimRightL (pyStripL l) = pyStripL l := by
    cases hh : (pyStripL l).getLast? with
    | none => rw [List.getLast?_eq_none_iff.mp hh]; rfl
    | some c => exact trimRightL_eq_self hh (getLast?_pyStripL_not_space hh)
  show trimRightL (trimLeftL (pyStripL l)) = pyStripL l
  rw [h1, h2]

theorem pyStrip_idem (s : String) : pyStrip (pyStrip s) = pyStrip s :=
  congrArg String.mk (pyStripL_idem s.data)

theorem uniqueLoop_mem {x : String} :
    ∀ (l seen : List String), x ∈ uniqueLoop seen l →
      x ∉ seen ∧ x ≠ "" ∧ ∃ p, x = pyStrip p := by
  intro l
  induction l with
  | nil => intro seen h; simp [uniqueLoop] at h
  | cons p rest ih =>
    intro seen h
    rw [uniqueLoop] at h
    by_cases hc : pyStrip p ≠ "" ∧ pyStrip p ∉ seen
    · rw [if_pos hc] at h
      rcases List.mem_cons.mp h with h1 | h2
      · exact h1 ▸ ⟨hc.2, hc.1, p, rfl⟩
      · rcases ih _ h2 with ⟨hs, hne, q, hx⟩
        exact ⟨fun hmem => hs (List.mem_cons_of_mem _ hmem), hne, q, hx⟩
    · rw [if_neg hc] at h
      exact ih _ h

theorem uniqueLoop_nodup : ∀ (l seen : List String), (uniqueLoop seen l).Nodup := by
  intro l
  induction l with
  | nil => intro seen; exact List.nodup_nil
  | cons p rest ih =>
    intro seen
    rw [uniqueLoop]
    by_cases hc : pyStrip p ≠ "" ∧ pyStrip p ∉ seen
    · rw [if_pos hc]
      refine List.nodup_cons.mpr ⟨?_, ih _⟩
      intro hmem
      exact (uniqueLoop_mem rest _ hmem).1 (List.mem_cons_self _ _)
    · rw [if_neg hc]
      exact ih _

theorem char_toNat_inj {a b : Char} (h : a.toNat = b.toNat) : a = b := by
  apply Char.ext
  apply UInt32.ext
  exact h

theorem listLtCh_iff_lex :
    ∀ l1 l2 : List Char, listLtCh l1 l2 = true ↔ List.Lex (· < ·) l1 l2 := by
  intro l1
  induction l1 with
  | nil =>
    intro l2
    cases l2 with
    | nil => exact iff_of_false (by simp [listLtCh]) (fun h => nomatch h)
    | cons b bs => exact iff_of_true (by simp [listLtCh]) List.Lex.nil
  | cons a as ih =>
    intro l2
    cases l2 with
    | nil => exact iff_of_false (by simp [listLtCh]) (fun h => nomatch h)
    | cons b bs =>
      by_cases h1 : a.toNat < b.toNat
      · exact iff_of_true (by simp [listLtCh, h1]) (List.Lex.rel h1)
      · by_cases h2 : b.toNat < a.toNat
        · apply iff_of_false (by simp [listLtCh, h1, h2])
          intro h
          cases h with
          | rel hr => exact h1 hr
          | cons ht => omega
        · have heq : a = b := char_toNat_inj (by omega)
          subst heq
          rw [show listLtCh (a :: as) (a :: bs) = listLtCh as bs from by simp [listLtCh]]
          constructor
          · intro h
            exact List.Lex.cons ((ih bs).mp h)
          · intro h
            cases h with
            | rel hr => exact absurd hr (lt_irrefl a)
            | cons ht => exact (ih bs).mpr ht

theorem strLt_iff {a b : String} : strLt a b = true ↔ a < b := by
  rw [String.lt_iff_toList_lt]
  exact listLtCh_iff_lex a.data b.data

theorem strLt_false_le {a b : String} (h : strLt b a = false) : a ≤ b :=
  le_of_not_lt (fun hh => by rw [strLt_iff.mpr hh] at h; exact Bool.noConfusion h)

theorem strLt_asymm (a b : String) (h : strLt a b = true) : strLt b a = false := by
  rw [Bool.eq_false_iff]
  intro hba
  exact absurd (strLt_iff.mp hba) (lt_asymm (strLt_iff.mp h))

theorem strLt_neg_trans (a b c : String) (h1 : strLt b a = false) (h2 : strLt c b = false) :
    strLt c a = false := by
  rw [Bool.eq_false_iff]
  intro hca
  exact absurd (strLt_iff.mp hca)
    (not_lt.mpr (le_trans (strLt_false_le h1) (strLt_false_le h2)))

theorem keyLt_asymm {α : Type} (key : α → Nat) (a b : α) (h : keyLt key a b = true) :
    keyLt key b a = false := by
  simp only [keyLt, decide_eq_true_eq, decide_eq_false_iff_not] at h ⊢
  omega

theorem keyLt_neg_trans {α : Type} (key : α → Nat) (a b c : α)
    (h1 : keyLt key b a = false) (h2 : keyLt key c b = false) : keyLt key c a = false := by
  simp only [keyLt, decide_eq_false_iff_not] at h1 h2 ⊢
  omega

theorem get_unique_products_none (cache : Cache) : get_unique_products none cache = [] := rfl

theorem get_unique_products_empty {f : Frame} (cache : Cache) (he : f.emptyDf = true) :
    get_unique_products (some f) cache = [] := by
  simp [get_unique_products, he]

theorem get_unique_products_nocol {f : Frame} {cache : Cache} (he : f.emptyDf = false)
    (hc : cache .product = none) : get_unique_products (some f) cache = [] := by
  simp [get_unique_products, he, hc]

theorem get_unique_products_eq {f : Frame} {cache : Cache} {pc : String}
    (he : f.emptyDf = false) (hc : cache .product = some pc) (hpc : pc ≠ "") :
    get_unique_products (some f) cache =
      isort strLt (uniqueLoop []
        (((f.colVals pc).filterMap id).filter (fun v => pyStrip v ≠ ""))) := by
  simp [get_unique_products, he, hc, hpc]

/-! ### The claims -/

/-- C8: header cleaning (`clean_column_names`) is idempotent: applying the
cleaning function to its own output yields the same string as applying it
once. -/
theorem c8_clean_column_name_idempotent (s : String) :
    clean_column_name (clean_column_name s) = clean_column_name s := by
  unfold clean_column_name
  exact congrArg String.mk (cleanL_idem s.data)

/-- C4: `sort_batches` orders records ascending by `batchKey` — the integer
value of the first run of decimal digits found anywhere in `batch_no`, `0`
when there are none — as a permutation of its input in which records of
equal key keep their original relative order (stability, expressed as
preservation of every equal-key subsequence); batch numbers `B-12`, `B-2`,
`B-100` sort to `B-2`, `B-12`, `B-100`. -/
theorem c4_sort_batches (l : List BatchData) (n : Nat) :
    List.Sorted (fun a b => batchKey a ≤ batchKey b) (sort_batches l) ∧
    List.Perm (sort_batches l) l ∧
    (sort_batches l).filter (fun b => batchKey b == n) =
      l.filter (fun b => batchKey b == n) ∧
    batchKey (bEx "B-12") = 12 ∧ batchKey (bEx "xyz") = 0 ∧
    sort_batches [bEx "B-12", bEx "B-2", bEx "B-100"] =
      [bEx "B-2", bEx "B-12", bEx "B-100"] := by
  refine ⟨?_, isort_perm _ l, isort_filter_key batchKey n l, by decide, by decide, by decide⟩
  have hp := isort_pairwise (keyLt batchKey) (keyLt_asymm batchKey) (keyLt_neg_trans batchKey) l
  exact hp.imp (fun h => by
    simp only [keyLt, decide_eq_false_iff_not] at h
    omega)

/-- C3: `get_unique_products` yields a list without duplicates whose entries
are non-empty and equal to their own trim (so it is duplicate-free by
trimmed value), sorted ascending lexicographically; it is empty whenever
the DataFrame is absent or empty or the product field is unresolved. -/
theorem c3_get_unique_products (df : Option Frame) (cache : Cache) :
    (get_unique_products df cache).Nodup ∧
    List.Sorted (fun a b : String => a ≤ b) (get_unique_products df cache) ∧
    (∀ x ∈ get_unique_products df cache, x ≠ "" ∧ pyStrip x = x) ∧
    (cache .product = none → get_unique_products df cache = []) ∧
    (df = none → get_unique_products df cache = []) ∧
    (∀ f, df = some f → f.emptyDf = true → get_unique_products df cache = []) := by
  have hnil : ([] : List String).Nodup ∧
      List.Sorted (fun a b : String => a ≤ b) ([] : List String) ∧
      (∀ x ∈ ([] : List String), x ≠ "" ∧ pyStrip x = x) :=
    ⟨List.nodup_nil, List.Pairwise.nil, by simp⟩
  have main : ∀ vals : List String,
      (isort strLt (uniqueLoop [] vals)).Nodup ∧
      List.Sorted (fun a b : String => a ≤ b) (isort strLt (uniqueLoop [] vals)) ∧
      (∀ x ∈ isort strLt (uniqueLoop [] vals), x ≠ "" ∧ pyStrip x = x) := by
    intro vals
    have hperm := isort_perm strLt (uniqueLoop [] vals)
    refine ⟨hperm.nodup_iff.mpr (uniqueLoop_nodup vals []), ?_, ?_⟩
    · have hp := isort_pairwise strLt strLt_asymm strLt_neg_trans (uniqueLoop [] vals)
      exact hp.imp (fun h => strLt_false_le h)
    · intro x hx
      rcases uniqueLoop_mem vals [] (hperm.mem_iff.mp hx) with ⟨_, hne, p, hp⟩
      exact ⟨hne, by rw [hp, pyStrip_idem]⟩
  rcases df with _ | f
  · exact ⟨hnil.1, hnil.2.1, hnil.2.2, fun _ => rfl, fun _ => rfl,
      fun f hf => absurd hf (by simp)⟩
  · by_cases he : f.emptyDf = true
    · rw [get_unique_products_empty cache he]
      exact ⟨hnil.1, hnil.2.1, hnil.2.2, fun _ => rfl, fun h => Option.noConfusion h,
        fun _ _ _ => rfl⟩
    · have he' : f.emptyDf = false := Bool.not_eq_true _ ▸ (by simpa using he)
      cases hc : cache .product with
      | none =>
        rw [get_unique_products_nocol he' hc]
        exact ⟨hnil.1, hnil.2.1, hnil.2.2, fun _ => rfl, fun h => Option.noConfusion h,
          fun _ _ _ => rfl⟩
      | some pc =>
        by_cases hpc : pc = ""
        · have hval : get_unique_products (some f) cache = [] := by
            simp [get_unique_products, he', hc, hpc]
          rw [hval]
          exact ⟨hnil.1, hnil.2.1, hnil.2.2, fun _ => rfl, fun h => Option.noConfusion h,
            fun _ _ _ => rfl⟩
        · rw [get_unique_products_eq he' hc hpc]
          rcases main (((f.colVals pc).filterMap id).filter (fun v => pyStrip v ≠ "")) with
            ⟨m1, m2, m3⟩
          exact ⟨m1, m2, m3,
            fun h => Option.noConfusion h,
            fun h => Option.noConfusion h,
            fun f' hf' he2 => by
              cases Option.some.inj hf'
              exact absurd he2 he⟩

/-- C3 witness: concrete evaluation of the unique-product list. -/
theorem c3_get_unique_products_witness :
    get_unique_products dfEx3 cacheEx1 = ["Aspirin", "Ibuprofen"] ∧
    (get_unique_products dfEx3 cacheEx1).Nodup ∧
    get_unique_products dfEx3 cacheNone = [] :=
  ⟨by decide, (c3_get_unique_products dfEx3 cacheEx1).1,
    (c3_get_unique_products dfEx3 cacheNone).2.2.2.1 rfl⟩

/-- C1 counterexample: the stored value `Aspirin ` (trailing space) and the
query `Aspirin` are equal after trimming and lower-casing both sides, yet
`search_product_batches` finds nothing — the code lower-cases but never
trims, refuting the claimed matching rule. -/
theorem c1_search_counterexample :
    pyLower (pyStrip "Aspirin ") = pyLower (pyStrip "Aspirin") ∧
    search_product_batches
      (some ⟨["product", "batch_no"], [[some "Aspirin ", some "B-1"]]⟩)
      cacheEx1 "Aspirin" = none := by
  decide

/-- C1 (amended): a row matches exactly when the cell's string rendering and
the query are equal after lower-casing both sides, with no trimming: the
lookup is case-insensitive in the query (`ASPIRIN` and `aspirin` both match
a stored `Aspirin`), but a stored value differing only by leading
whitespace does not match. -/
theorem c1_search_product_batches (v : Option String) (df : Option Frame) (cache : Cache)
    (q q' : String) (hq : pyLower q = pyLower q') :
    (rowMatches v q = true ↔ pyLower (astypeStr v) = pyLower q) ∧
    search_product_batches df cache q = search_product_batches df cache q' ∧
    search_product_batches (some frameAsp) cacheEx1 "ASPIRIN" = some [bEx "B-1"] ∧
    search_product_batches (some frameAsp) cacheEx1 "aspirin" = some [bEx "B-1"] ∧
    search_product_batches (some frameAspLead) cacheEx1 "Aspirin" = none := by
  refine ⟨?_, ?_, by decide, by decide, by decide⟩
  · simp [rowMatches]
  · cases df with
    | none => rfl
    | some f =>
      have hm : ∀ w, rowMatches w q = rowMatches w q' := fun w => by
        unfold rowMatches
        rw [hq]
      simp only [search_product_batches, hm]

/-- C1 witness: the case-insensitivity consequence at a concrete input. -/
theorem c1_search_witness :
    search_product_batches (some frameAsp) cacheEx1 "ASPIRIN" =
      search_product_batches (some frameAsp) cacheEx1 "aspirin" :=
  (c1_search_product_batches none (some frameAsp) cacheEx1 "ASPIRIN" "aspirin" (by decide)).2.1

/-- C2 counterexample: `not-a-date` satisfies the claim's hypotheses but is
returned upper-cased, and an unparseable input containing a space is also
truncated at the space — not the trimmed original unchanged. -/
theorem c2_date_fallback_counterexample :
    format_date_properly "not-a-date" = "NOT-A-DATE" ∧
    format_date_properly "not-a-date more" = "NOT-A-DATE" ∧
    "NOT-A-DATE" ≠ "not-a-date" := by
  decide

/-- C2 (amended): for every non-empty input containing no NA token (checked
case-insensitively via the upper-cased trimmed text) whose before-first-space
portion parses under none of the six formats, `format_date_properly` returns
the upper-cased trimmed input truncated at its first space — i.e. the
trimmed original modulo upper-casing and truncation, not unchanged. -/
theorem c2_date_fallback (s : String)
    (h1 : pyStrip s ≠ "")
    (h2 : containsNA (pyUpper (pyStrip s)) = false)
    (h3 : tryFormats (beforeSpace (pyUpper (pyStrip s))) = none) :
    format_date_properly s = beforeSpace (pyUpper (pyStrip s)) := by
  simp [format_date_properly, h1, h2, h3]

/-- C2 witness: concrete fallback evaluation through the amended theorem. -/
theorem c2_date_fallback_witness : format_date_properly "hello world" = "HELLO" :=
  (c2_date_fallback "hello world" (by decide) (by decide) (by decide)).trans (by decide)

/-- C5: for non-NA non-empty input whose before-first-space portion parses,
the six formats are tried in the configured order with the first success
winning and the result always rendered `DD.MM.YYYY`; the ambiguous
`01/02/2024` parses under both `%d/%m/%Y` and `%m/%d/%Y` but resolves
day-first; `2024-03-05` round-trips to `05.03.2024` and `N/A` passes
through unchanged. -/
theorem c5_date_success (s : String) (d : PyDate)
    (h1 : pyStrip s ≠ "")
    (h2 : containsNA (pyUpper (pyStrip s)) = false)
    (h3 : tryFormats (beforeSpace (pyUpper (pyStrip s))) = some d) :
    format_date_properly s = fmtDMY d ∧
    strptime3? "01/02/2024" '/' .dmy = some ⟨2024, 2, 1⟩ ∧
    strptime3? "01/02/2024" '/' .mdy = some ⟨2024, 1, 2⟩ ∧
    tryFormats "01/02/2024" = some ⟨2024, 2, 1⟩ ∧
    format_date_properly "01/02/2024" = "01.02.2024" ∧
    format_date_properly "2024-03-05" = "05.03.2024" ∧
    format_date_properly "N/A" = "N/A" := by
  refine ⟨?_, by decide, by decide, by decide, by decide, by decide, by decide⟩
  simp [format_date_properly, h1, h2, h3]

/-- C5 witness: a timestamped ISO date normalizes through the theorem. -/
theorem c5_date_success_witness :
    format_date_properly "2024-03-05 00:00:00" = "05.03.2024" :=
  ((c5_date_success "2024-03-05 00:00:00" ⟨2024, 3, 5⟩ (by decide) (by decide)
    (by decide)).1).trans (by decide)

set_option maxRecDepth 16384 in
/-- C6: `format_percentage` returns empty for blank input; the upper-cased
trimmed original for NA-token input; the two-decimal rendering with `%`
suffix when the `%`/whitespace-stripped remainder parses as a float; empty
when the cleaned remainder is empty or literally `nan`; and the trimmed
upper-cased original when float parsing raises on a non-empty non-`nan`
remainder.  Examples: `98.5%` to `98.50%`, `  97  ` to `97.00%`, empty to
empty, `NA` to `NA`. -/
theorem c6_format_percentage (value : String) (pf : PyFloat) :
    (pyStrip value = "" → format_percentage value = "") ∧
    (pyStrip value ≠ "" → containsNA (pyUpper (pyStrip value)) = true →
      format_percentage value = pyUpper (pyStrip value)) ∧
    (pyStrip value ≠ "" → containsNA (pyUpper (pyStrip value)) = false →
      (stripPct (pyUpper (pyStrip value)) = "" ∨ stripPct (pyUpper (pyStrip value)) = "nan") →
      format_percentage value = "") ∧
    (pyStrip value ≠ "" → containsNA (pyUpper (pyStrip value)) = false →
      stripPct (pyUpper (pyStrip value)) ≠ "" → stripPct (pyUpper (pyStrip value)) ≠ "nan" →
      parseFloat? (stripPct (pyUpper (pyStrip value))) = some pf →
      format_percentage value = pf.fmt2 ++ "%") ∧
    (pyStrip value ≠ "" → containsNA (pyUpper (pyStrip value)) = false →
      stripPct (pyUpper (pyStrip value)) ≠ "" → stripPct (pyUpper (pyStrip value)) ≠ "nan" →
      parseFloat? (stripPct (pyUpper (pyStrip value))) = none →
      format_percentage value = pyUpper (pyStrip value)) ∧
    format_percentage "98.5%" = "98.50%" ∧
    format_percentage "  97  " = "97.00%" ∧
    format_percentage "" = "" ∧
    format_percentage "NA" = "NA" := by
  refine ⟨?_, ?_, ?_, ?_, ?_, by decide, by decide, by decide, by decide⟩
  · intro h1
    simp [format_percentage, h1]
  · intro h1 h2
    simp [format_percentage, h1, h2]
  · intro h1 h2 h3
    rcases h3 with h3 | h3 <;> simp [format_percentage, h1, h2, h3]
  · intro h1 h2 h3 h4 h5
    simp [format_percentage, h1, h2, h3, h4, h5]
  · intro h1 h2 h3 h4 h5
    simp [format_percentage, h1, h2, h3, h4, h5]

set_option maxRecDepth 16384 in
/-- C6 witness: the float branch of the theorem at `98.5%`. -/
theorem c6_format_percentage_witness :
    format_percentage "98.5%" = (PyFloat.fin false 985 (-1)).fmt2 ++ "%" :=
  (c6_format_percentage "98.5%" (.fin false 985 (-1))).2.2.2.1
    (by decide) (by decide) (by decide) (by decide) (by decide)

/-- C7 counterexample: a DataFrame with the header `product` but zero data
rows is `df.empty`, so `find_column_name` returns `none` although the exact
candidate `product` occurs among the headers: exact matches are not always
returned. -/
theorem c7_find_column_name_counterexample :
    "product" ∈ (Frame.mk ["product"] []).columns ∧
    "product" ∈ (["product"] : List String) ∧
    find_column_name (some (Frame.mk ["product"] [])) ["product"] = none := by
  decide

theorem find_column_name_exact {f : Frame} {names : List String} {m : String}
    (hne : f.emptyDf = false)
    (hm : names.find? (fun name => f.columns.contains name) = some m) :
    find_column_name (some f) names = some m := by
  have hm2 : names.find? (fun name => decide (name ∈ f.columns)) = some m := by
    simpa [List.contains] using hm
  simp [find_column_name, hne, hm2]

theorem find_column_name_noexact {f : Frame} {names : List String}
    (hne : f.emptyDf = false)
    (hm : names.find? (fun name => f.columns.contains name) = none) :
    find_column_name (some f) names =
      f.columns.find? (fun col =>
        names.any (fun name => containsSubstr (pyLower col) (pyLower name))) := by
  have hm2 : names.find? (fun name => decide (name ∈ f.columns)) = none := by
    simpa [List.contains] using hm
  simp [find_column_name, hne, hm2]

/-- C7 (amended): provided the DataFrame is present and non-empty (the code
answers `none` outright for a missing or empty one), resolution returns the
first exact case-sensitive candidate match whenever an exact match exists,
never falling through to substring matching; only without an exact match
does it return the first header (original order) whose lower-cased text
contains some candidate's lower-cased text, and `none` when neither step
matches. -/
theorem c7_find_column_name (f : Frame) (names : List String) (hne : f.emptyDf = false) :
    ((∃ n ∈ names, n ∈ f.columns) →
      ∃ m, find_column_name (some f) names = some m ∧ m ∈ names ∧ m ∈ f.columns ∧
        names.find? (fun name => f.columns.contains name) = some m) ∧
    ((∀ n ∈ names, n ∉ f.columns) →
      find_column_name (some f) names =
        f.columns.find? (fun col =>
          names.any (fun name => containsSubstr (pyLower col) (pyLower name)))) ∧
    ((∀ n ∈ names, n ∉ f.columns) →
      (∀ col ∈ f.columns, ∀ name ∈ names,
        containsSubstr (pyLower col) (pyLower name) = false) →
      find_column_name (some f) names = none) := by
  have hnoex : (∀ n ∈ names, n ∉ f.columns) →
      names.find? (fun name => f.columns.contains name) = none := by
    intro hno
    apply List.find?_eq_none.mpr
    intro x hx
    simp only [List.contains, List.elem_eq_mem, decide_eq_true_eq]
    simpa using hno x hx
  refine ⟨?_, ?_, ?_⟩
  · intro hex
    have hsome : (names.find? (fun name => f.columns.contains name)).isSome := by
      apply List.find?_isSome.mpr
      obtain ⟨n, hn1, hn2⟩ := hex
      exact ⟨n, hn1, by simpa [List.contains] using hn2⟩
    obtain ⟨m, hm⟩ := Option.isSome_iff_exists.mp hsome
    refine ⟨m, find_column_name_exact hne hm, List.mem_of_find?_eq_some hm, ?_, hm⟩
    have := List.find?_some hm
    simpa [List.contains] using this
  · intro hno
    exact find_column_name_noexact hne (hnoex hno)
  · intro hno hsub
    rw [find_column_name_noexact hne (hnoex hno)]
    apply List.find?_eq_none.mpr
    intro col hcol
    simp only [List.any_eq_true]
    rintro ⟨name, hname, hcontains⟩
    rw [hsub col hcol name hname] at hcontains
    exact Bool.noConfusion hcontains

/-- C7 witness: exact resolution on a concrete non-empty frame, priority
order respected. -/
theorem c7_find_column_name_witness :
    ∃ m, find_column_name (some frameAsp) ["product_name", "product"] = some m ∧
      m ∈ ["product_name", "product"] := by
  obtain ⟨m, hm, hmem, -, -⟩ := (c7_find_column_name frameAsp ["product_name", "product"]
    (by decide)).1 ⟨"product", by decide, by decide⟩
  exact ⟨m, hm, hmem⟩

/-- C9: `load_excel_data` returns `False` exactly when the source file is
absent or unreadable; with a readable workbook lacking the requested sheet
name it warns, falls back to the first sheet and still succeeds. -/
theorem c9_load_excel_data (src : Option Workbook) (cfg : WebConfig) :
    ((load_excel_data src cfg).ok = false ↔ src = none) ∧
    (∀ wb, src = some wb → cfg.sheet_name ∉ wb.sheetNames →
      (load_excel_data src cfg).ok = true ∧
      (load_excel_data src cfg).warned = true ∧
      (load_excel_data src cfg).df =
        some ⟨clean_column_names wb.firstSheet.header, wb.firstSheet.cells⟩) := by
  constructor
  · cases src with
    | none => simp [load_excel_data]
    | some wb =>
      constructor
      · intro h
        by_cases hmem : cfg.sheet_name ∈ wb.sheetNames <;>
          simp [load_excel_data, hmem] at h
      · intro h
        exact Option.noConfusion h
  · intro wb hsrc hmem
    subst hsrc
    refine ⟨?_, ?_, ?_⟩ <;> simp [load_excel_data, hmem]

theorem c9_load_excel_data_witness :
    (load_excel_data none cfgEx).ok = false ∧
    (load_excel_data (some wbEx) cfgEx).ok = true ∧
    (load_excel_data (some wbEx) cfgEx).warned = true :=
  ⟨(c9_load_excel_data none cfgEx).1.mpr rfl,
   ((c9_load_excel_data (some wbEx) cfgEx).2 wbEx rfl (by decide)).1,
   ((c9_load_excel_data (some wbEx) cfgEx).2 wbEx rfl (by decide)).2.1⟩

/-- C10: when the requested sheet name is absent, `load_excel_data`
overwrites the configuration's `sheet_name` with the first sheet's name (so
later reads observe the fallback name) and leaves `excel_file`,
`template_file`, `output_folder` and `column_mappings` unchanged; when the
requested name is present the configuration is untouched entirely. -/
theorem c10_load_config_frame (wb : Workbook) (cfg : WebConfig)
    (h : cfg.sheet_name ∉ wb.sheetNames) :
    (load_excel_data (some wb) cfg).config.sheet_name = wb.firstSheet.name ∧
    (load_excel_data (some wb) cfg).config.excel_file = cfg.excel_file ∧
    (load_excel_data (some wb) cfg).config.template_file = cfg.template_file ∧
    (load_excel_data (some wb) cfg).config.output_folder = cfg.output_folder ∧
    (load_excel_data (some wb) cfg).config.column_mappings = cfg.column_mappings ∧
    (∀ cfg2 : WebConfig, cfg2.sheet_name ∈ wb.sheetNames →
      (load_excel_data (some wb) cfg2).config = cfg2) := by
  refine ⟨?_, ?_, ?_, ?_, ?_, ?_⟩ <;>
    first
      | (intro cfg2 hmem; simp [load_excel_data, hmem])
      | simp [load_excel_data, h]

/-- C10 witness: fallback at the concrete workbook/configuration. -/
theorem c10_load_config_frame_witness :
    (load_excel_data (some wbEx) cfgEx).config.sheet_name = "Sheet1" ∧
    (load_excel_data (some wbEx) cfgEx).config.excel_file = "data.xlsx" := by
  have h := c10_load_config_frame wbEx cfgEx (by decide)
  exact ⟨h.1, h.2.1⟩

end BatchGen

